import Mathlib

/-
Verification of the exhibitor-lineup dashboard (src/app.py).

The source is a pandas/streamlit script.  The shallow embedding below models
its tables as lists of records and its transformations as pure functions:

  * bookings rows and lineup rows are structures whose fields carry the
    post-normalization column names of app.py (lines 26-27);
  * dates are day numbers (Int); a parsed release date is `Option Int`,
    `none` standing for pandas NaT after `pd.to_datetime(..., errors=coerce)`
    (line 30);
  * cell values read from the sheet are strings; `get_all_records` never
    yields NaN for a cell, so the only null booking fields are the ones
    introduced by the left merge (line 109), modelled by `Option BookingRow`;
  * `get_exhibitor_lineup` (lines 104-142) is translated step by step:
    exhibitor/country filter, left merge on Title, Release_Date derivation,
    per-row format label, group-by-Title aggregation, upcoming-window filter.

Row order inside the embedding follows dataframe order; pandas sorts the
groupby output by key, a presentational difference no theorem below depends
on (all statements are about membership and counts, not positions).
-/

namespace ExhibitorLineup

/-- A row of the bookings table ("Bookings Raw Data") after column
normalization.  `Start_Date` and `BU` are the raw cell texts. -/
structure BookingRow where
  Exhibitor : String
  Country : String
  Title : String
  Start_Date : String
  BU : String
deriving DecidableEq

/-- A row of the lineup table ("4DPLEX Lineup Clean") after column
normalization and after `pd.to_datetime` on `First_Release` (app.py line 30):
`none` is NaT (an unparseable date).  `fourDX` embeds the column named "4DX"
in the source (not a legal Lean identifier). -/
structure LineupRow where
  Title : String
  First_Release : Option Int
  Country_of_Origin : String
  fourDX : String
  SX : String
deriving DecidableEq

/-- A row of the left-merged frame (app.py line 109): the lineup part plus
the matching booking row, `none` when no booking matched the title. -/
structure MergedRow where
  lineup : LineupRow
  booking : Option BookingRow
deriving DecidableEq

/-- A row of the aggregated booked table (app.py lines 123-131). -/
structure BookedRow where
  Title : String
  Country_of_Origin : String
  Release_Date : String
  Format_s_Booked : String
deriving DecidableEq

/-- A row of the upcoming table (app.py lines 133-137). -/
structure UpcomingRow where
  Title : String
  Country_of_Origin : String
  fourDX : String
  SX : String
deriving DecidableEq

/-- Does `hay` start with `needle`?  Building block for the embedding of
the Python substring test `needle in hay`. -/
def startsWithL [DecidableEq α] : List α → List α → Bool
  | [], _ => true
  | _ :: _, [] => false
  | a :: as, b :: bs => if a = b then startsWithL as bs else false

/-- Contiguous-substring test on lists; `containsSub n h` embeds the Python
expression `n in h` on strings (via their character lists). -/
def containsSub [DecidableEq α] (needle : List α) : List α → Bool
  | [] => needle.isEmpty
  | b :: bs => startsWithL needle (b :: bs) || containsSub needle bs

/-- Python substring containment `needle in hay` for strings. -/
def pyIn (needle hay : String) : Bool := containsSub needle.data hay.data

/-- The separator-join `", ".join(formats)` of app.py line 119 and the
aggregation lambda of line 129. -/
def joinComma : List String → String
  | [] => ""
  | s :: rest => if rest.isEmpty then s else s ++ ", " ++ joinComma rest

/-- First-occurrence deduplication, the behaviour of `pandas.Series.unique`
(line 129) and of `drop_duplicates` (line 137); `seen` accumulates the
values already emitted. -/
def uniqueFirstAux [DecidableEq α] (seen : List α) : List α → List α
  | [] => []
  | a :: l => if a ∈ seen then uniqueFirstAux seen l else a :: uniqueFirstAux (a :: seen) l

/-- First-occurrence deduplication of a list. -/
def uniqueFirst [DecidableEq α] (l : List α) : List α := uniqueFirstAux [] l

/-- App.py line 105-107: booking rows of the given exhibitor in the selected
country. -/
def exhibitor_data (bookings : List BookingRow) (exhibitor_name selected_country : String) :
    List BookingRow :=
  bookings.filter (fun b => b.Exhibitor == exhibitor_name && b.Country == selected_country)

/-- One lineup row of the left merge `lineup_df.merge(exhibitor_data,
on="Title", how="left")` (line 109): all matching booking rows, or a single
row with null booking fields when none matches. -/
def mergeRow (ex : List BookingRow) (lr : LineupRow) : List MergedRow :=
  if (ex.filter (fun b => b.Title == lr.Title)).isEmpty then [⟨lr, none⟩]
  else (ex.filter (fun b => b.Title == lr.Title)).map (fun b => ⟨lr, some b⟩)

/-- The left merge of the year-filtered lineup with the exhibitor's booking
rows (app.py line 109). -/
def mergeLeft (lineup : List LineupRow) (ex : List BookingRow) : List MergedRow :=
  (lineup.map (mergeRow ex)).flatten

/-- App.py line 111: `Release_Date` is the merged `Start_Date` when it is
not null, else the sentinel "-".  Sheet cells are strings (never NaN), so
the merged `Start_Date` is null exactly when no booking row matched. -/
def Release_Date (r : MergedRow) : String :=
  match r.booking with
  | some b => b.Start_Date
  | none => "-"

/-- The text `str(row["BU"])` of app.py lines 115 and 117: the booking's BU
cell, or the Python rendering "nan" of the null introduced by the merge. -/
def buStr (r : MergedRow) : String :=
  match r.booking with
  | some b => b.BU
  | none => "nan"

/-- App.py lines 113-119 (`format_bookings`): the per-row format label. -/
def format_bookings (r : MergedRow) : String :=
  let formats :=
    (if pyIn "M244DX" (buStr r) then ["4DX"] else []) ++
    (if pyIn "M24SCX" (buStr r) then ["ScreenX"] else [])
  if formats.isEmpty then "Not Booked" else joinComma formats

/-- App.py line 124: the merged rows with an actual booking
(`Release_Date != "-"`). -/
def bookedRows (merged : List MergedRow) : List MergedRow :=
  merged.filter (fun r => Release_Date r != "-")

/-- The `.agg` dictionary of app.py lines 126-130 applied to one title
group: first country of origin, first release date, and the comma-join of
the first-occurrence-deduplicated labels with the em-dash placeholder
filtered out. -/
def aggGroup (t : String) (g : List MergedRow) : BookedRow where
  Title := t
  Country_of_Origin := g.head?.elim "" (fun r => r.lineup.Country_of_Origin)
  Release_Date := g.head?.elim "" Release_Date
  Format_s_Booked :=
    joinComma ((uniqueFirst (g.map format_bookings)).filter (fun v => v != "—"))

/-- App.py lines 123-131: group the booked merged rows by `Title` and
aggregate each group. -/
def booked_titles (merged : List MergedRow) : List BookedRow :=
  (uniqueFirst ((bookedRows merged).map (fun r => r.lineup.Title))).map
    (fun t => aggGroup t ((bookedRows merged).filter (fun r => r.lineup.Title == t)))

/-- App.py line 136: origin countries excluded from the upcoming table. -/
def excludedCountries : List String := ["China", "Vietnam"]

/-- App.py line 135: `First_Release.between(one_month_ago,
three_months_ahead)` with `one_month_ago = today - 30 days` and
`three_months_ahead = today + 90 days` (lines 33-35); pandas `between` is
inclusive at both bounds and false on NaT. -/
def inWindow (today : Int) (lr : LineupRow) : Bool :=
  match lr.First_Release with
  | some d => decide (today - 30 ≤ d) && decide (d ≤ today + 90)
  | none => false

/-- The row filter of app.py lines 133-136: title not already booked, release
date in the rolling window, origin country not excluded. -/
def upcomingPred (booked : List BookedRow) (today : Int) (lr : LineupRow) : Bool :=
  !((booked.map (fun b => b.Title)).contains lr.Title) &&
    inWindow today lr &&
    !(excludedCountries.contains lr.Country_of_Origin)

/-- The column projection of app.py line 137. -/
def projUpcoming (lr : LineupRow) : UpcomingRow :=
  ⟨lr.Title, lr.Country_of_Origin, lr.fourDX, lr.SX⟩

/-- App.py lines 133-137: the upcoming table — filter, project to the four
columns, drop exact duplicates. -/
def upcoming_titles (lineup : List LineupRow) (booked : List BookedRow) (today : Int) :
    List UpcomingRow :=
  uniqueFirst ((lineup.filter (upcomingPred booked today)).map projUpcoming)

/-- App.py lines 104-142 (`get_exhibitor_lineup`): the pair of report
tables.  `lineup` is the year-filtered `lineup_df` of line 38. -/
def get_exhibitor_lineup (bookings : List BookingRow) (lineup : List LineupRow)
    (exhibitor_name selected_country : String) (today : Int) :
    List BookedRow × List UpcomingRow :=
  let ex := exhibitor_data bookings exhibitor_name selected_country
  let merged := mergeLeft lineup ex
  let booked := booked_titles merged
  (booked, upcoming_titles lineup booked today)

/-- App.py line 38: keep the lineup rows whose parsed `First_Release` is on
or after the cutoff (the source fixes the cutoff to 2025-01-01); a NaT
(`none`) compares as not ≥ cutoff and the row is dropped. -/
def yearFilter (cutoff : Int) (lineup : List LineupRow) : List LineupRow :=
  lineup.filter (fun lr =>
    match lr.First_Release with
    | some d => decide (cutoff ≤ d)
    | none => false)

/-- App.py lines 139-140: the display rename `.str.replace("_", " ")`. -/
def renameCol (s : String) : String :=
  ⟨s.data.map (fun c => if c = '_' then ' ' else c)⟩

/-- The internal column names of the aggregated booked table: the groupby
key followed by the keys of the `.agg` dictionary (app.py lines 125-130). -/
def booked_columns : List String :=
  ["Title", "Country_of_Origin", "Release_Date", "Format_s_Booked"]

/-- The internal column names of the upcoming table (app.py line 137). -/
def upcoming_columns : List String :=
  ["Title", "Country_of_Origin", "4DX", "SX"]

/-- The booked table headers as displayed (app.py line 139). -/
def booked_display_columns : List String := booked_columns.map renameCol

/-- The upcoming table headers as displayed (app.py line 140). -/
def upcoming_display_columns : List String := upcoming_columns.map renameCol

/-- Python whitespace test used by `str.strip` (ASCII range). -/
def isPyWS (c : Char) : Bool :=
  c == ' ' || c == '\t' || c == '\n' || c == '\r' || c == '\x0b' || c == '\x0c'

/-- Python `str.strip()` on a character list: drop leading and trailing
whitespace. -/
def pyStripL (l : List Char) : List Char :=
  (((l.dropWhile isPyWS).reverse).dropWhile isPyWS).reverse

/-- Replace every occurrence of one character by another; embeds
`str.replace(old, new)` for single characters. -/
def replC (old new c : Char) : Char := if c = old then new else c

/-- App.py lines 26-27: header normalization
`.str.strip().str.replace(" ", "_").str.replace("\n", "_")`. -/
def normalizeHeader (s : String) : String :=
  ⟨((pyStripL s.data).map (replC ' ' '_')).map (replC '\n' '_')⟩

/-- Header normalization applied to a whole header row. -/
def normalizeHeaders (hs : List String) : List String := hs.map normalizeHeader

/-- The login-session state (app.py lines 44-47): the logged-in flag and the
authenticated exhibitor name. -/
structure SessionState where
  logged_in : Bool
  exhibitor_name : Option String
deriving DecidableEq

/-- The initial session state (app.py lines 44-46). -/
def loggedOut : SessionState where
  logged_in := false
  exhibitor_name := none

/-- App.py line 84: `bookings_df["Exhibitor"].unique()`. -/
def uniqueExhibitors (bookings : List BookingRow) : List String :=
  uniqueFirst (bookings.map (fun b => b.Exhibitor))

/-- App.py lines 83-88, the Login button handler: on the shared password and
a known exhibitor name, set the logged-in state; otherwise leave the state
unchanged and report invalid credentials (the returned flag is true exactly
when the error message is shown). -/
def loginStep (bookings : List BookingRow) (s : SessionState) (name pw : String) :
    SessionState × Bool :=
  if pw == "2025" && (uniqueExhibitors bookings).contains name then
    ({ logged_in := true, exhibitor_name := some name }, false)
  else
    (s, true)

/-! Helper lemmas about the list utilities of the embedding. -/

theorem mem_uniqueFirstAux [DecidableEq α] (a : α) (l : List α) :
    ∀ seen, a ∈ uniqueFirstAux seen l ↔ a ∈ l ∧ a ∉ seen := by
  induction l with
  | nil => intro seen; simp [uniqueFirstAux]
  | cons b l ih =>
    intro seen
    by_cases hb : b ∈ seen
    · simp only [uniqueFirstAux, if_pos hb, ih, List.mem_cons]
      constructor
      · rintro ⟨h1, h2⟩; exact ⟨Or.inr h1, h2⟩
      · rintro ⟨h1, h2⟩
        rcases h1 with rfl | h1
        · exact absurd hb h2
        · exact ⟨h1, h2⟩
    · simp only [uniqueFirstAux, if_neg hb, List.mem_cons, ih]
      by_cases hab : a = b
      · subst hab; simp [hb]
      · simp [hab]

theorem mem_uniqueFirst [DecidableEq α] (a : α) (l : List α) :
    a ∈ uniqueFirst l ↔ a ∈ l := by
  simp [uniqueFirst, mem_uniqueFirstAux]

theorem nodup_uniqueFirstAux [DecidableEq α] (l : List α) :
    ∀ seen, (uniqueFirstAux seen l).Nodup := by
  induction l with
  | nil => intro seen; simp [uniqueFirstAux]
  | cons b l ih =>
    intro seen
    by_cases hb : b ∈ seen
    · simpa [uniqueFirstAux, hb] using ih seen
    · simp only [uniqueFirstAux, if_neg hb, List.nodup_cons]
      refine ⟨fun hmem => ?_, ih _⟩
      have := (mem_uniqueFirstAux b l (b :: seen)).mp hmem
      exact this.2 (List.mem_cons_self b seen)

theorem nodup_uniqueFirst [DecidableEq α] (l : List α) : (uniqueFirst l).Nodup :=
  nodup_uniqueFirstAux l []

theorem startsWithL_iff [DecidableEq α] (n : List α) :
    ∀ h, startsWithL n h = true ↔ ∃ t, h = n ++ t := by
  induction n with
  | nil => intro h; simp only [startsWithL, true_iff]; exact ⟨h, rfl⟩
  | cons a as ih =>
    intro h
    cases h with
    | nil =>
      simp [startsWithL]
    | cons b bs =>
      by_cases hab : a = b
      · subst hab
        simp [startsWithL, ih]
      · simp only [startsWithL, if_neg hab, List.cons_append, List.cons.injEq]
        constructor
        · intro hf; exact absurd hf (by simp)
        · rintro ⟨t, hfalse, -⟩; exact absurd hfalse.symm hab

theorem containsSub_iff [DecidableEq α] (n : List α) :
    ∀ h, containsSub n h = true ↔ ∃ p t, h = p ++ n ++ t := by
  intro h
  induction h with
  | nil =>
    simp only [containsSub, List.isEmpty_iff]
    constructor
    · rintro rfl; exact ⟨[], [], rfl⟩
    · rintro ⟨p, t, hpt⟩
      rcases List.append_eq_nil.mp (List.append_eq_nil.mp hpt.symm).1 with ⟨-, h2⟩
      exact h2
  | cons b bs ih =>
    simp only [containsSub, Bool.or_eq_true, startsWithL_iff, ih]
    constructor
    · rintro (⟨t, ht⟩ | ⟨p, t, hpt⟩)
      · exact ⟨[], t, by simpa using ht⟩
      · exact ⟨b :: p, t, by simp [hpt]⟩
    · rintro ⟨p, t, hpt⟩
      cases p with
      | nil => exact Or.inl ⟨t, by simpa using hpt⟩
      | cons c p =>
        rcases List.cons.injEq .. ▸ hpt with ⟨-, h2⟩
        exact Or.inr ⟨p, t, by simpa using h2⟩

theorem data_append (s t : String) : (s ++ t).data = s.data ++ t.data := by
  cases s; cases t; rfl

theorem mem_joinComma_decomp (s : String) (l : List String) (hs : s ∈ l) :
    ∃ p t, (joinComma l).data = p ++ s.data ++ t := by
  induction l with
  | nil => cases hs
  | cons a rest ih =>
    rcases List.mem_cons.mp hs with rfl | hmem
    · by_cases hr : rest.isEmpty
      · exact ⟨[], [], by simp [joinComma, hr]⟩
      · exact ⟨[], (", " ++ joinComma rest).data,
          by simp [joinComma, hr, data_append, List.append_assoc]⟩
    · have hr : rest.isEmpty = false := by
        cases rest with
        | nil => cases hmem
        | cons x xs => rfl
      rcases ih hmem with ⟨p, t, hpt⟩
      refine ⟨(a ++ ", ").data ++ p, t, ?_⟩
      simp [joinComma, hr, data_append, hpt, List.append_assoc]

theorem pyIn_of_mem_joinComma (sub s : String) (l : List String) (hs : s ∈ l)
    (hsub : pyIn sub s = true) : pyIn sub (joinComma l) = true := by
  rcases (containsSub_iff sub.data s.data).mp hsub with ⟨p2, t2, h2⟩
  rcases mem_joinComma_decomp s l hs with ⟨p, t, hpt⟩
  refine (containsSub_iff sub.data (joinComma l).data).mpr ⟨p ++ p2, t2 ++ t, ?_⟩
  simp [hpt, h2, List.append_assoc]

/-! Helper lemmas about the merge, the booked aggregation and the labels. -/

theorem mem_mergeRow_some (ex : List BookingRow) (lr lr' : LineupRow) (b : BookingRow) :
    (⟨lr', some b⟩ : MergedRow) ∈ mergeRow ex lr ↔
      lr' = lr ∧ b ∈ ex ∧ b.Title = lr.Title := by
  unfold mergeRow
  rcases h : ex.filter (fun x => x.Title == lr.Title) with - | ⟨c, cs⟩
  · rw [h]
    simp only [List.isEmpty_nil, if_true, List.mem_singleton, MergedRow.mk.injEq]
    constructor
    · rintro ⟨-, hfalse⟩; cases hfalse
    · rintro ⟨-, hb, ht⟩
      have hmem : b ∈ ex.filter (fun x => x.Title == lr.Title) :=
        List.mem_filter.mpr ⟨hb, by simp [ht]⟩
      rw [h] at hmem
      cases hmem
  · rw [h]
    simp only [List.isEmpty_cons, Bool.false_eq_true, if_false, List.mem_map,
      MergedRow.mk.injEq]
    constructor
    · rintro ⟨x, hx, heq, hsome⟩
      cases hsome
      rw [← h] at hx
      rcases List.mem_filter.mp hx with ⟨hx1, hx2⟩
      exact ⟨heq.symm, hx1, by simpa using hx2⟩
    · rintro ⟨heq, hb, ht⟩
      subst heq
      refine ⟨b, ?_, rfl, rfl⟩
      rw [← h]
      exact List.mem_filter.mpr ⟨hb, by simp [ht]⟩

theorem mem_mergeLeft_some (lineup : List LineupRow) (ex : List BookingRow)
    (lr : LineupRow) (b : BookingRow) :
    (⟨lr, some b⟩ : MergedRow) ∈ mergeLeft lineup ex ↔
      lr ∈ lineup ∧ b ∈ ex ∧ b.Title = lr.Title := by
  unfold mergeLeft
  rw [List.mem_flatten]
  constructor
  · rintro ⟨m, hm, hx⟩
    rcases List.mem_map.mp hm with ⟨lr0, hl0, rfl⟩
    rcases (mem_mergeRow_some ex lr0 lr b).mp hx with ⟨rfl, hb, ht⟩
    exact ⟨hl0, hb, ht⟩
  · rintro ⟨hl, hb, ht⟩
    exact ⟨mergeRow ex lr, List.mem_map_of_mem _ hl,
      (mem_mergeRow_some ex lr lr b).mpr ⟨rfl, hb, ht⟩⟩

theorem mem_bookedRows (m : List MergedRow) (r : MergedRow) :
    r ∈ bookedRows m ↔ r ∈ m ∧ Release_Date r ≠ "-" := by
  simp [bookedRows, List.mem_filter]

theorem mem_bookedRows_merge (lineup : List LineupRow) (ex : List BookingRow)
    (lr : LineupRow) (b : BookingRow) :
    (⟨lr, some b⟩ : MergedRow) ∈ bookedRows (mergeLeft lineup ex) ↔
      lr ∈ lineup ∧ b ∈ ex ∧ b.Title = lr.Title ∧ b.Start_Date ≠ "-" := by
  rw [mem_bookedRows, mem_mergeLeft_some]
  have : Release_Date ⟨lr, some b⟩ = b.Start_Date := rfl
  rw [this]
  tauto

theorem mem_exhibitor_data (bookings : List BookingRow) (name country : String)
    (b : BookingRow) :
    b ∈ exhibitor_data bookings name country ↔
      b ∈ bookings ∧ b.Exhibitor = name ∧ b.Country = country := by
  simp [exhibitor_data, List.mem_filter]

theorem booked_titles_map_title (m : List MergedRow) :
    (booked_titles m).map (fun r => r.Title) =
      uniqueFirst ((bookedRows m).map (fun r => r.lineup.Title)) := by
  unfold booked_titles
  rw [List.map_map]
  exact List.map_id _

theorem mem_booked_titles (m : List MergedRow) (br : BookedRow) :
    br ∈ booked_titles m ↔
      ∃ t, t ∈ uniqueFirst ((bookedRows m).map (fun r => r.lineup.Title)) ∧
        br = aggGroup t ((bookedRows m).filter (fun r => r.lineup.Title == t)) := by
  simp only [booked_titles, List.mem_map]
  constructor
  · rintro ⟨t, ht, rfl⟩; exact ⟨t, ht, rfl⟩
  · rintro ⟨t, ht, rfl⟩; exact ⟨t, ht, rfl⟩

theorem format_bookings_both (r : MergedRow) (h1 : pyIn "M244DX" (buStr r) = true)
    (h2 : pyIn "M24SCX" (buStr r) = true) : format_bookings r = "4DX, ScreenX" := by
  unfold format_bookings
  rw [h1, h2]
  rfl

theorem format_bookings_dx (r : MergedRow) (h1 : pyIn "M244DX" (buStr r) = true)
    (h2 : pyIn "M24SCX" (buStr r) = false) : format_bookings r = "4DX" := by
  unfold format_bookings
  rw [h1, h2]
  rfl

theorem format_bookings_sx (r : MergedRow) (h1 : pyIn "M244DX" (buStr r) = false)
    (h2 : pyIn "M24SCX" (buStr r) = true) : format_bookings r = "ScreenX" := by
  unfold format_bookings
  rw [h1, h2]
  rfl

theorem format_bookings_nb (r : MergedRow) (h1 : pyIn "M244DX" (buStr r) = false)
    (h2 : pyIn "M24SCX" (buStr r) = false) : format_bookings r = "Not Booked" := by
  unfold format_bookings
  rw [h1, h2]
  rfl

theorem format_bookings_cases (r : MergedRow) :
    format_bookings r = "4DX" ∨ format_bookings r = "ScreenX" ∨
      format_bookings r = "4DX, ScreenX" ∨ format_bookings r = "Not Booked" := by
  rcases h1 : pyIn "M244DX" (buStr r) <;> rcases h2 : pyIn "M24SCX" (buStr r)
  · exact Or.inr (Or.inr (Or.inr (format_bookings_nb r h1 h2)))
  · exact Or.inr (Or.inl (format_bookings_sx r h1 h2))
  · exact Or.inl (format_bookings_dx r h1 h2)
  · exact Or.inr (Or.inr (Or.inl (format_bookings_both r h1 h2)))

theorem format_bookings_ne_emdash (r : MergedRow) : format_bookings r ≠ "—" := by
  rcases format_bookings_cases r with h | h | h | h <;> rw [h] <;> decide

theorem filter_emdash_eq_self (g : List MergedRow) :
    (uniqueFirst (g.map format_bookings)).filter (fun v => v != "—") =
      uniqueFirst (g.map format_bookings) := by
  apply List.filter_eq_self.mpr
  intro v hv
  rcases List.mem_map.mp ((mem_uniqueFirst v _).mp hv) with ⟨r, -, rfl⟩
  simpa using format_bookings_ne_emdash r

theorem pyIn_aggGroup (m : List MergedRow) (t sub : String) (r : MergedRow)
    (hr : r ∈ bookedRows m) (ht : r.lineup.Title = t)
    (hsub : pyIn sub (format_bookings r) = true) :
    pyIn sub (aggGroup t ((bookedRows m).filter (fun x => x.lineup.Title == t))).Format_s_Booked
      = true := by
  have hrg : r ∈ (bookedRows m).filter (fun x => x.lineup.Title == t) :=
    List.mem_filter.mpr ⟨hr, by simp [ht]⟩
  have hlab := List.mem_map_of_mem format_bookings hrg
  have hu := (mem_uniqueFirst (format_bookings r) _).mpr hlab
  have hf : format_bookings r ∈
      (uniqueFirst (((bookedRows m).filter (fun x => x.lineup.Title == t)).map
        format_bookings)).filter (fun v => v != "—") :=
    List.mem_filter.mpr ⟨hu, by simpa using format_bookings_ne_emdash r⟩
  exact pyIn_of_mem_joinComma sub (format_bookings r) _ hf hsub

theorem get_exhibitor_lineup_fst (bookings : List BookingRow) (lineup : List LineupRow)
    (name country : String) (today : Int) :
    (get_exhibitor_lineup bookings lineup name country today).1 =
      booked_titles (mergeLeft lineup (exhibitor_data bookings name country)) := rfl

theorem get_exhibitor_lineup_snd (bookings : List BookingRow) (lineup : List LineupRow)
    (name country : String) (today : Int) :
    (get_exhibitor_lineup bookings lineup name country today).2 =
      upcoming_titles lineup
        (booked_titles (mergeLeft lineup (exhibitor_data bookings name country))) today := rfl

theorem mem_upcoming_titles (lineup : List LineupRow) (booked : List BookedRow)
    (today : Int) (u : UpcomingRow) :
    u ∈ upcoming_titles lineup booked today ↔
      ∃ lr, lr ∈ lineup ∧ upcomingPred booked today lr = true ∧ u = projUpcoming lr := by
  simp only [upcoming_titles, mem_uniqueFirst, List.mem_map, List.mem_filter]
  constructor
  · rintro ⟨lr, ⟨hl, hp⟩, rfl⟩; exact ⟨lr, hl, hp, rfl⟩
  · rintro ⟨lr, hl, hp, rfl⟩; exact ⟨lr, ⟨hl, hp⟩, rfl⟩

theorem upcomingPred_iff (booked : List BookedRow) (today : Int) (lr : LineupRow) :
    upcomingPred booked today lr = true ↔
      lr.Title ∉ booked.map (fun b => b.Title) ∧ inWindow today lr = true ∧
        lr.Country_of_Origin ∉ excludedCountries := by
  simp [upcomingPred, and_assoc]

/-- C3: a title never appears in both the booked set and the upcoming set
returned by a single call to get_exhibitor_lineup: the upcoming filter
(app.py line 134) removes every title of the booked table. -/
theorem booked_upcoming_disjoint (bookings : List BookingRow) (lineup : List LineupRow)
    (name country : String) (today : Int) (bk : BookedRow) (u : UpcomingRow)
    (hbk : bk ∈ (get_exhibitor_lineup bookings lineup name country today).1)
    (hu : u ∈ (get_exhibitor_lineup bookings lineup name country today).2) :
    bk.Title ≠ u.Title := by
  rw [get_exhibitor_lineup_snd] at hu
  rcases (mem_upcoming_titles _ _ _ _).mp hu with ⟨lr, -, hpred, rfl⟩
  have h1 := ((upcomingPred_iff _ _ _).mp hpred).1
  intro heq
  rw [get_exhibitor_lineup_fst] at hbk
  have hmem := List.mem_map_of_mem (fun r => r.Title) hbk
  have heq2 : bk.Title = lr.Title := heq
  exact h1 (by simpa [heq2] using hmem)

/-- C3 witness: a run with one booked title and one upcoming title; the
theorem yields that the two titles differ. -/
theorem booked_upcoming_disjoint_witness : ("Movie1" : String) ≠ "Movie2" :=
  booked_upcoming_disjoint
    [⟨"A", "KR", "Movie1", "2025-03-01", "M244DX"⟩]
    [⟨"Movie1", some 0, "USA", "O", "O"⟩, ⟨"Movie2", some 5, "Korea", "O", ""⟩]
    "A" "KR" 0
    ⟨"Movie1", "USA", "2025-03-01", "4DX"⟩
    ⟨"Movie2", "Korea", "O", ""⟩
    (by decide) (by decide)

/-- C9: no row of the upcoming set has origin country China or Vietnam; the
filter at app.py line 136 excludes both, so a lineup row from either country
never appears in the upcoming set regardless of its release date or booked
status. -/
theorem upcoming_excludes_origin (bookings : List BookingRow) (lineup : List LineupRow)
    (name country : String) (today : Int) (u : UpcomingRow)
    (hu : u ∈ (get_exhibitor_lineup bookings lineup name country today).2) :
    u.Country_of_Origin ≠ "China" ∧ u.Country_of_Origin ≠ "Vietnam" := by
  rw [get_exhibitor_lineup_snd] at hu
  rcases (mem_upcoming_titles _ _ _ _).mp hu with ⟨lr, -, hpred, rfl⟩
  have h3 := ((upcomingPred_iff _ _ _).mp hpred).2.2
  simp only [excludedCountries, List.mem_cons, List.mem_singleton] at h3
  push_neg at h3
  exact ⟨h3.1, h3.2.1⟩

/-- C9 witness: a concrete run with a nonempty upcoming set; the theorem
yields that its row's origin country is neither China nor Vietnam. -/
theorem upcoming_excludes_origin_witness :
    ("Korea" : String) ≠ "China" ∧ ("Korea" : String) ≠ "Vietnam" :=
  upcoming_excludes_origin []
    [⟨"Movie2", some 5, "Korea", "O", ""⟩]
    "A" "KR" 0
    ⟨"Movie2", "Korea", "O", ""⟩
    (by decide)

/-- C2: the upcoming window is inclusive at both bounds.  For a year-filtered
lineup row whose title is not booked and whose origin country is not
excluded: a parsed release date of exactly today − 30 or today + 90 puts the
row in the upcoming set, while a date of today − 31 or today + 91 makes the
upcoming filter reject the row, so it is not selected into the set. -/
theorem upcoming_window_boundary (bookings : List BookingRow) (lineup : List LineupRow)
    (name country : String) (today : Int) (lr : LineupRow)
    (hl : lr ∈ lineup)
    (hnb : lr.Title ∉
      ((get_exhibitor_lineup bookings lineup name country today).1).map (fun b => b.Title))
    (hcn : lr.Country_of_Origin ∉ excludedCountries) :
    (lr.First_Release = some (today - 30) →
      projUpcoming lr ∈ (get_exhibitor_lineup bookings lineup name country today).2) ∧
    (lr.First_Release = some (today + 90) →
      projUpcoming lr ∈ (get_exhibitor_lineup bookings lineup name country today).2) ∧
    (lr.First_Release = some (today - 31) →
      upcomingPred (get_exhibitor_lineup bookings lineup name country today).1 today lr
        = false) ∧
    (lr.First_Release = some (today + 91) →
      upcomingPred (get_exhibitor_lineup bookings lineup name country today).1 today lr
        = false) := by
  have hpos : ∀ d : Int, lr.First_Release = some d → today - 30 ≤ d → d ≤ today + 90 →
      projUpcoming lr ∈ (get_exhibitor_lineup bookings lineup name country today).2 := by
    intro d hd hd1 hd2
    rw [get_exhibitor_lineup_snd]
    refine (mem_upcoming_titles _ _ _ _).mpr ⟨lr, hl, ?_, rfl⟩
    refine (upcomingPred_iff _ _ _).mpr ⟨hnb, ?_, hcn⟩
    simp only [inWindow, hd, Bool.and_eq_true, decide_eq_true_eq]
    exact ⟨hd1, hd2⟩
  have hneg : ∀ d : Int, lr.First_Release = some d → (d < today - 30 ∨ today + 90 < d) →
      upcomingPred (get_exhibitor_lineup bookings lineup name country today).1 today lr
        = false := by
    intro d hd hout
    have hw : inWindow today lr = false := by
      simp only [inWindow, hd, Bool.and_eq_false_iff, decide_eq_false_iff_not]
      omega
    simp [upcomingPred, hw]
  refine ⟨fun hd => hpos _ hd (by omega) (by omega),
    fun hd => hpos _ hd (by omega) (by omega),
    fun hd => hneg _ hd (by omega),
    fun hd => hneg _ hd (by omega)⟩

/-- C2 witness: with today = 0 a lineup row released exactly 30 days earlier
is present in the upcoming set. -/
theorem upcoming_window_boundary_witness :
    (⟨"M", "USA", "O", "O"⟩ : UpcomingRow) ∈
      (get_exhibitor_lineup [] [⟨"M", some (-30), "USA", "O", "O"⟩] "A" "K" 0).2 :=
  (upcoming_window_boundary [] [⟨"M", some (-30), "USA", "O", "O"⟩] "A" "K" 0
    ⟨"M", some (-30), "USA", "O", "O"⟩ (by decide) (by decide) (by decide)).1 (by decide)

theorem mergeLeft_nil_ex (lineup : List LineupRow) :
    mergeLeft lineup [] = lineup.map (fun lr => ⟨lr, none⟩) := by
  induction lineup with
  | nil => rfl
  | cons lr rest ih =>
    simp only [mergeLeft] at ih ⊢
    simp only [List.map_cons, List.flatten_cons, ih]
    rfl

theorem bookedRows_all_null (lineup : List LineupRow) :
    bookedRows (lineup.map (fun lr => ⟨lr, none⟩)) = [] := by
  induction lineup with
  | nil => rfl
  | cons lr rest ih =>
    simp only [List.map_cons, bookedRows, List.filter_cons] at ih ⊢
    simp [Release_Date, ih]

/-- C6: an authenticated exhibitor with zero matching booking rows gets an
empty booked table, and an upcoming table equal to the year-filtered lineup
restricted to the rolling window with excluded-origin rows removed
(projected to the four output columns and deduplicated, as at app.py
line 137). -/
theorem zero_bookings_shape (bookings : List BookingRow) (lineup : List LineupRow)
    (name country : String) (today : Int)
    (h : exhibitor_data bookings name country = []) :
    (get_exhibitor_lineup bookings lineup name country today).1 = [] ∧
    (get_exhibitor_lineup bookings lineup name country today).2 =
      uniqueFirst ((lineup.filter (fun lr =>
        inWindow today lr && !(excludedCountries.contains lr.Country_of_Origin))).map
          projUpcoming) := by
  have hbooked : (get_exhibitor_lineup bookings lineup name country today).1 = [] := by
    rw [get_exhibitor_lineup_fst, h, mergeLeft_nil_ex]
    unfold booked_titles
    rw [bookedRows_all_null]
    rfl
  refine ⟨hbooked, ?_⟩
  rw [get_exhibitor_lineup_snd]
  have hbooked2 : booked_titles (mergeLeft lineup (exhibitor_data bookings name country))
      = [] := hbooked
  rw [hbooked2]
  unfold upcoming_titles
  have hf : lineup.filter (upcomingPred [] today) =
      lineup.filter (fun lr =>
        inWindow today lr && !(excludedCountries.contains lr.Country_of_Origin)) :=
    List.filter_congr (fun lr _ => by simp [upcomingPred])
  rw [hf]

/-- C6 witness: a concrete run with no bookings at all. -/
theorem zero_bookings_shape_witness :
    (get_exhibitor_lineup [] [⟨"M", some 5, "Korea", "O", ""⟩] "A" "K" 0).1 = [] ∧
    (get_exhibitor_lineup [] [⟨"M", some 5, "Korea", "O", ""⟩] "A" "K" 0).2 =
      uniqueFirst ((([⟨"M", some 5, "Korea", "O", ""⟩] : List LineupRow).filter (fun lr =>
        inWindow 0 lr && !(excludedCountries.contains lr.Country_of_Origin))).map
          projUpcoming) :=
  zero_bookings_shape [] [⟨"M", some 5, "Korea", "O", ""⟩] "A" "K" 0 (by decide)

/-- C7: the lineup year filter keeps exactly the rows whose parsed
First_Release is on or after the cutoff (the source pins the cutoff to
2025-01-01 at app.py line 38); a row whose date failed to parse carries
`none` (pandas NaT) and is dropped by the comparison, with no error — the
filter is a total function. -/
theorem yearFilter_mem (cutoff : Int) (lineup : List LineupRow) (lr : LineupRow) :
    lr ∈ yearFilter cutoff lineup ↔
      lr ∈ lineup ∧ ∃ d, lr.First_Release = some d ∧ cutoff ≤ d := by
  simp only [yearFilter, List.mem_filter]
  rcases hfr : lr.First_Release with - | d
  · simp [hfr]
  · simp [hfr]

/-- C5: from the logged-out state, the login handler moves to the logged-in
state carrying the submitted name exactly when the password is the literal
"2025" and the name occurs in the Exhibitor column of the bookings table;
for any other pair the state is returned unchanged and the invalid-credentials
error is reported. -/
theorem login_gate (bookings : List BookingRow) (name pw : String) :
    (loginStep bookings loggedOut name pw =
        ({ logged_in := true, exhibitor_name := some name }, false) ↔
      pw = "2025" ∧ name ∈ bookings.map (fun b => b.Exhibitor)) ∧
    (¬(pw = "2025" ∧ name ∈ bookings.map (fun b => b.Exhibitor)) →
      loginStep bookings loggedOut name pw = (loggedOut, true)) := by
  have hcond : (pw == "2025" && (uniqueExhibitors bookings).contains name) = true ↔
      (pw = "2025" ∧ name ∈ bookings.map (fun b => b.Exhibitor)) := by
    simp [uniqueExhibitors, mem_uniqueFirst]
  constructor
  · constructor
    · intro hstep
      cases hb : (pw == "2025" && (uniqueExhibitors bookings).contains name)
      · rw [loginStep, hb] at hstep
        simp [loggedOut] at hstep
      · exact hcond.mp hb
    · intro hp
      rw [loginStep, hcond.mpr hp]
      rfl
  · intro hn
    have hb : (pw == "2025" && (uniqueExhibitors bookings).contains name) = false := by
      cases hb : (pw == "2025" && (uniqueExhibitors bookings).contains name)
      · rfl
      · exact absurd (hcond.mp hb) hn
    rw [loginStep, hb]
    rfl

/-- C5 witness: a wrong password leaves the state unchanged and reports the
error. -/
theorem login_gate_witness :
    loginStep [⟨"A", "KR", "M", "2025-03-01", "M244DX"⟩] loggedOut "A" "2024"
      = (loggedOut, true) :=
  (login_gate [⟨"A", "KR", "M", "2025-03-01", "M244DX"⟩] "A" "2024").2 (by decide)

/-- C4 counterexample: the displayed booked headers are not
{Title, Country of Origin, Release Date, Formats Booked}: the internal name
Format_s_Booked (app.py line 121) renders as "Format s Booked" after the
underscore-to-space rename of line 139. -/
theorem display_columns_cex :
    booked_display_columns ≠ ["Title", "Country of Origin", "Release Date", "Formats Booked"]
      := by decide

/-- C4 amended: the booked table headers displayed are {Title, Country of
Origin, Release Date, Format s Booked} — the last one with a stray space —
and the upcoming table headers are {Title, Country of Origin, 4DX, SX} as
claimed. -/
theorem display_columns_amended :
    booked_display_columns = ["Title", "Country of Origin", "Release Date", "Format s Booked"]
      ∧ upcoming_display_columns = ["Title", "Country of Origin", "4DX", "SX"] := by decide

/-! Helper lemmas for the header-normalization idempotence claim. -/

theorem dropWhile_twice {α} (p : α → Bool) (l : List α) :
    (l.dropWhile p).dropWhile p = l.dropWhile p := by
  induction l with
  | nil => rfl
  | cons a t ih =>
    by_cases hp : p a = true
    · simp [List.dropWhile_cons, hp, ih]
    · simp [List.dropWhile_cons, hp]

theorem dropWhile_eq_self_of_head {α} (p : α → Bool) (l : List α)
    (h : ∀ x, l.head? = some x → p x = false) : l.dropWhile p = l := by
  cases l with
  | nil => rfl
  | cons a t =>
    have := h a rfl
    simp [List.dropWhile_cons, this]

theorem head_false_of_dropWhile_eq_self {α} (p : α → Bool) (l : List α)
    (h : l.dropWhile p = l) : ∀ x, l.head? = some x → p x = false := by
  cases l with
  | nil => intro x hx; cases hx
  | cons a t =>
    intro x hx
    rw [List.head?_cons, Option.some.injEq] at hx
    subst hx
    by_cases hp : p a = true
    · rw [List.dropWhile_cons, if_pos hp] at h
      have hlen := (List.dropWhile_sublist (l := t) p).length_le
      rw [h] at hlen
      simp at hlen
    · simpa using hp

theorem dropWhile_decomp {α} (p : α → Bool) (l : List α) :
    ∃ pre, l = pre ++ l.dropWhile p := by
  induction l with
  | nil => exact ⟨[], rfl⟩
  | cons a t ih =>
    by_cases hp : p a = true
    · rcases ih with ⟨pre, hpre⟩
      refine ⟨a :: pre, ?_⟩
      rw [List.dropWhile_cons, if_pos hp, List.cons_append, ← hpre]
    · exact ⟨[], by simp [List.dropWhile_cons, hp]⟩

theorem head_false_append {α} (p : α → Bool) (a b : List α)
    (h : ∀ x, (a ++ b).head? = some x → p x = false) :
    ∀ x, a.head? = some x → p x = false := by
  cases a with
  | nil => intro x hx; cases hx
  | cons c t =>
    intro x hx
    rw [List.head?_cons, Option.some.injEq] at hx
    subst hx
    exact h c rfl

theorem pyStripL_head_false (l : List Char) :
    ∀ x, (pyStripL l).head? = some x → isPyWS x = false := by
  unfold pyStripL
  rcases dropWhile_decomp isPyWS (l.dropWhile isPyWS).reverse with ⟨pre, hpre⟩
  have hy2 : l.dropWhile isPyWS =
      ((l.dropWhile isPyWS).reverse.dropWhile isPyWS).reverse ++ pre.reverse := by
    have hr := congrArg List.reverse hpre
    simpa [List.reverse_append] using hr
  have hhf : ∀ x, (l.dropWhile isPyWS).head? = some x → isPyWS x = false :=
    head_false_of_dropWhile_eq_self _ _ (dropWhile_twice _ _)
  exact head_false_append _ _ _ (fun z hz => hhf z (by rw [hy2]; exact hz))

theorem pyStripL_rev_dropWhile (l : List Char) :
    (pyStripL l).reverse.dropWhile isPyWS = (pyStripL l).reverse := by
  unfold pyStripL
  rw [List.reverse_reverse]
  exact dropWhile_twice _ _

theorem pyStripL_fix (l : List Char)
    (h1 : l.dropWhile isPyWS = l) (h2 : l.reverse.dropWhile isPyWS = l.reverse) :
    pyStripL l = l := by
  unfold pyStripL
  rw [h1, h2, List.reverse_reverse]

theorem repl_fix_nonws (c : Char) (h : isPyWS c = false) :
    replC '\n' '_' (replC ' ' '_' c) = c := by
  have h1 : c ≠ ' ' := fun hc => by simp [isPyWS, hc] at h
  have h2 : c ≠ '\n' := fun hc => by simp [isPyWS, hc] at h
  simp [replC, h1, h2]

theorem repl_not_ws_char (c : Char) :
    replC '\n' '_' (replC ' ' '_' c) ≠ ' ' ∧ replC '\n' '_' (replC ' ' '_' c) ≠ '\n' := by
  by_cases h1 : c = ' '
  · subst h1; decide
  · by_cases h2 : c = '\n'
    · subst h2; decide
    · simp only [replC, if_neg h1, if_neg h2]
      exact ⟨h1, h2⟩

theorem map_fix_of_mem {α} (f : α → α) (l : List α) (h : ∀ a ∈ l, f a = a) :
    l.map f = l := by
  induction l with
  | nil => rfl
  | cons a t ih =>
    rw [List.map_cons, h a (List.mem_cons_self a t),
      ih (fun x hx => h x (List.mem_cons_of_mem a hx))]

theorem normalizeHeader_data (s : String) :
    (normalizeHeader s).data =
      ((pyStripL s.data).map (replC ' ' '_')).map (replC '\n' '_') := rfl

theorem normalizeHeader_idem (s : String) :
    normalizeHeader (normalizeHeader s) = normalizeHeader s := by
  have hu : (normalizeHeader s).data =
      (pyStripL s.data).map (fun c => replC '\n' '_' (replC ' ' '_' c)) := by
    rw [normalizeHeader_data, List.map_map]
    rfl
  have hnw : ∀ c ∈ (normalizeHeader s).data, c ≠ ' ' ∧ c ≠ '\n' := by
    intro c hc
    rw [hu] at hc
    rcases List.mem_map.mp hc with ⟨a, -, rfl⟩
    exact repl_not_ws_char a
  have hhead : ∀ x, (normalizeHeader s).data.head? = some x → isPyWS x = false := by
    intro x hx
    rw [hu] at hx
    rcases ht : pyStripL s.data with - | ⟨a, rest⟩
    · rw [ht] at hx; cases hx
    · rw [ht] at hx
      rw [List.map_cons, List.head?_cons, Option.some.injEq] at hx
      have ha : isPyWS a = false := pyStripL_head_false s.data a (by rw [ht]; rfl)
      rw [← hx, repl_fix_nonws a ha]
      exact ha
  have hrev : ∀ x, (normalizeHeader s).data.reverse.head? = some x → isPyWS x = false := by
    intro x hx
    rw [hu, ← List.map_reverse] at hx
    rcases htr : (pyStripL s.data).reverse with - | ⟨a, rest⟩
    · rw [htr] at hx; cases hx
    · rw [htr] at hx
      rw [List.map_cons, List.head?_cons, Option.some.injEq] at hx
      have ha : isPyWS a = false :=
        head_false_of_dropWhile_eq_self _ _ (pyStripL_rev_dropWhile s.data) a
          (by rw [htr]; rfl)
      rw [← hx, repl_fix_nonws a ha]
      exact ha
  apply String.ext
  rw [normalizeHeader_data (normalizeHeader s)]
  have hstrip : pyStripL (normalizeHeader s).data = (normalizeHeader s).data :=
    pyStripL_fix _ (dropWhile_eq_self_of_head _ _ hhead)
      (dropWhile_eq_self_of_head _ _ hrev)
  rw [hstrip]
  have h1 : (normalizeHeader s).data.map (replC ' ' '_') = (normalizeHeader s).data :=
    map_fix_of_mem _ _ (fun a ha => by
      have hne := (hnw a ha).1
      simp [replC, hne])
  rw [h1]
  exact map_fix_of_mem _ _ (fun a ha => by
    have hne := (hnw a ha).2
    simp [replC, hne])

/-- C8: column-header normalization (strip, then replace spaces and newlines
by underscores, app.py lines 26-27) is idempotent: applying it twice to any
header row gives the same result as applying it once. -/
theorem normalizeHeaders_idem (hs : List String) :
    normalizeHeaders (normalizeHeaders hs) = normalizeHeaders hs := by
  unfold normalizeHeaders
  rw [List.map_map]
  exact List.map_congr_left (fun s _ => normalizeHeader_idem s)

/-- C1 counterexample: the claim ignores the selected-country filter of
app.py line 106.  Exhibitor "A" is authenticated with selected country "KR";
the bookings row (A, US, Movie1) has BU containing the ScreenX marker and
Movie1 has a non-null derived Release_Date (it is in the booked set), yet
the booked set is exactly one row whose Formats_Booked is "4DX", which does
not contain "ScreenX": the US row was dropped by the country filter. -/
theorem booked_formats_cex :
    pyIn "M24SCX" "M24SCX" = true ∧
    (get_exhibitor_lineup
      [⟨"A", "KR", "Movie1", "2025-03-01", "M244DX"⟩,
       ⟨"A", "US", "Movie1", "2025-03-01", "M24SCX"⟩]
      [⟨"Movie1", some 0, "USA", "O", "O"⟩] "A" "KR" 0).1
      = [⟨"Movie1", "USA", "2025-03-01", "4DX"⟩] ∧
    pyIn "ScreenX" "4DX" = false := by decide

/-- C1 amended: restrict to the exhibitor's rows in the selected country
whose title occurs in the year-filtered lineup and whose Start_Date is not
the null sentinel "-".  Such a title appears exactly once in the booked set,
and that booked row's Formats_Booked contains "4DX" (resp. "ScreenX")
whenever any such row's BU contains the 4DX (resp. ScreenX) marker, and
contains "Not Booked" when such a row's BU contains neither marker. -/
theorem booked_formats (bookings : List BookingRow) (lineup : List LineupRow)
    (name country : String) (today : Int) (b : BookingRow) (lr : LineupRow)
    (hb : b ∈ bookings) (he : b.Exhibitor = name) (hc : b.Country = country)
    (hs : b.Start_Date ≠ "-") (hl : lr ∈ lineup) (ht : lr.Title = b.Title) :
    (((get_exhibitor_lineup bookings lineup name country today).1.map
        (fun r => r.Title)).count b.Title = 1) ∧
    (∀ br ∈ (get_exhibitor_lineup bookings lineup name country today).1,
      br.Title = b.Title →
      ∀ b2 ∈ bookings, b2.Exhibitor = name → b2.Country = country →
        b2.Title = b.Title → b2.Start_Date ≠ "-" →
        (pyIn "M244DX" b2.BU = true → pyIn "4DX" br.Format_s_Booked = true) ∧
        (pyIn "M24SCX" b2.BU = true → pyIn "ScreenX" br.Format_s_Booked = true) ∧
        (pyIn "M244DX" b2.BU = false → pyIn "M24SCX" b2.BU = false →
          pyIn "Not Booked" br.Format_s_Booked = true)) := by
  have hbex : b ∈ exhibitor_data bookings name country :=
    (mem_exhibitor_data bookings name country b).mpr ⟨hb, he, hc⟩
  have hbm : (⟨lr, some b⟩ : MergedRow) ∈
      bookedRows (mergeLeft lineup (exhibitor_data bookings name country)) :=
    (mem_bookedRows_merge lineup (exhibitor_data bookings name country) lr b).mpr
      ⟨hl, hbex, ht.symm, hs⟩
  have htm : b.Title ∈
      (bookedRows (mergeLeft lineup (exhibitor_data bookings name country))).map
        (fun r => r.lineup.Title) := by
    have h0 := List.mem_map_of_mem (fun r : MergedRow => r.lineup.Title) hbm
    simpa [ht] using h0
  constructor
  · rw [get_exhibitor_lineup_fst, booked_titles_map_title]
    exact List.count_eq_one_of_mem (nodup_uniqueFirst _) ((mem_uniqueFirst _ _).mpr htm)
  · intro br hbr hbrt b2 hb2 he2 hc2 ht2 hs2
    rw [get_exhibitor_lineup_fst] at hbr
    rcases (mem_booked_titles _ br).mp hbr with ⟨t, -, rfl⟩
    have htb : t = b.Title := hbrt
    subst htb
    have hb2ex : b2 ∈ exhibitor_data bookings name country :=
      (mem_exhibitor_data bookings name country b2).mpr ⟨hb2, he2, hc2⟩
    have ht2l : b2.Title = lr.Title := by rw [ht2, ht]
    have hr2 : (⟨lr, some b2⟩ : MergedRow) ∈
        bookedRows (mergeLeft lineup (exhibitor_data bookings name country)) :=
      (mem_bookedRows_merge lineup (exhibitor_data bookings name country) lr b2).mpr
        ⟨hl, hb2ex, ht2l, hs2⟩
    have hrt : (⟨lr, some b2⟩ : MergedRow).lineup.Title = b.Title := ht
    refine ⟨fun h4 => ?_, fun hsx => ?_, fun h4 hsx => ?_⟩
    · cases hsx2 : pyIn "M24SCX" b2.BU with
      | false =>
        exact pyIn_aggGroup _ _ _ _ hr2 hrt
          (by rw [format_bookings_dx ⟨lr, some b2⟩ h4 hsx2]; decide)
      | true =>
        exact pyIn_aggGroup _ _ _ _ hr2 hrt
          (by rw [format_bookings_both ⟨lr, some b2⟩ h4 hsx2]; decide)
    · cases h42 : pyIn "M244DX" b2.BU with
      | false =>
        exact pyIn_aggGroup _ _ _ _ hr2 hrt
          (by rw [format_bookings_sx ⟨lr, some b2⟩ h42 hsx]; decide)
      | true =>
        exact pyIn_aggGroup _ _ _ _ hr2 hrt
          (by rw [format_bookings_both ⟨lr, some b2⟩ h42 hsx]; decide)
    · exact pyIn_aggGroup _ _ _ _ hr2 hrt
        (by rw [format_bookings_nb ⟨lr, some b2⟩ h4 hsx]; decide)

/-- C1 witness: a single 4DX booking in the selected country puts its title
in the booked set exactly once. -/
theorem booked_formats_witness :
    (((get_exhibitor_lineup [⟨"A", "KR", "Movie1", "2025-03-01", "M244DX"⟩]
        [⟨"Movie1", some 0, "USA", "O", "O"⟩] "A" "KR" 0).1.map
          (fun r => r.Title)).count "Movie1") = 1 :=
  (booked_formats [⟨"A", "KR", "Movie1", "2025-03-01", "M244DX"⟩]
    [⟨"Movie1", some 0, "USA", "O", "O"⟩] "A" "KR" 0
    ⟨"A", "KR", "Movie1", "2025-03-01", "M244DX"⟩ ⟨"Movie1", some 0, "USA", "O", "O"⟩
    (by decide) rfl rfl (by decide) (by decide) rfl).1

/-- C10: the per-row format label is always one of "4DX", "ScreenX",
"4DX, ScreenX" or "Not Booked"; the aggregation filter that drops the
em-dash placeholder therefore never removes anything; and a booked title one
of whose rows has a non-sentinel Start_Date and a BU with neither marker
gets the literal "Not Booked" inside its comma-joined Formats_Booked. -/
theorem format_label_range :
    (∀ r : MergedRow, format_bookings r = "4DX" ∨ format_bookings r = "ScreenX" ∨
      format_bookings r = "4DX, ScreenX" ∨ format_bookings r = "Not Booked") ∧
    (∀ g : List MergedRow,
      (uniqueFirst (g.map format_bookings)).filter (fun v => v != "—") =
        uniqueFirst (g.map format_bookings)) ∧
    (∀ (bookings : List BookingRow) (lineup : List LineupRow) (name country : String)
        (today : Int) (b : BookingRow) (lr : LineupRow),
      b ∈ bookings → b.Exhibitor = name → b.Country = country → b.Start_Date ≠ "-" →
      pyIn "M244DX" b.BU = false → pyIn "M24SCX" b.BU = false →
      lr ∈ lineup → lr.Title = b.Title →
      ∃ br ∈ (get_exhibitor_lineup bookings lineup name country today).1,
        br.Title = b.Title ∧ pyIn "Not Booked" br.Format_s_Booked = true) := by
  refine ⟨format_bookings_cases, filter_emdash_eq_self, ?_⟩
  intro bookings lineup name country today b lr hb he hc hs h4 hsx hl ht
  have hbex : b ∈ exhibitor_data bookings name country :=
    (mem_exhibitor_data bookings name country b).mpr ⟨hb, he, hc⟩
  have hbm : (⟨lr, some b⟩ : MergedRow) ∈
      bookedRows (mergeLeft lineup (exhibitor_data bookings name country)) :=
    (mem_bookedRows_merge lineup (exhibitor_data bookings name country) lr b).mpr
      ⟨hl, hbex, ht.symm, hs⟩
  have htm : b.Title ∈
      (bookedRows (mergeLeft lineup (exhibitor_data bookings name country))).map
        (fun r => r.lineup.Title) := by
    have h0 := List.mem_map_of_mem (fun r : MergedRow => r.lineup.Title) hbm
    simpa [ht] using h0
  have hrt : (⟨lr, some b⟩ : MergedRow).lineup.Title = b.Title := ht
  refine ⟨aggGroup b.Title
    ((bookedRows (mergeLeft lineup (exhibitor_data bookings name country))).filter
      (fun r => r.lineup.Title == b.Title)), ?_, rfl, ?_⟩
  · rw [get_exhibitor_lineup_fst]
    exact (mem_booked_titles _ _).mpr ⟨b.Title, (mem_uniqueFirst _ _).mpr htm, rfl⟩
  · exact pyIn_aggGroup _ _ _ _ hbm hrt
      (by rw [format_bookings_nb ⟨lr, some b⟩ h4 hsx]; decide)

end ExhibitorLineup
